import Mathlib

/-!
Verification development for the deepagents repository.

Shallow embedding of the Virtual Store file tools (src/deepagents/tools.py),
the approval-gate hooks (examples/code/post_model_hook.py and
src/deepagents/interrupt.py) and the delegation engine (src/deepagents/sub_agent.py),
together with theorems settling the spec claims.

The Virtual Store is a Python dict from path to content; it is modelled as an
association list with Python-dict semantics: insertion updates the first entry
with the given key in place, otherwise appends at the end, and lookup returns
the first entry with the given key.
-/

namespace DeepAgents

/-- A file store: path to content, Python-dict semantics (unique keys in practice). -/
abbrev Files := List (String × String)

/-- Lookup in a Python dict modelled as an association list. -/
def dictGet : Files → String → Option String
  | [], _ => none
  | (k, v) :: t, q => if k = q then some v else dictGet t q

/-- Python dict assignment files[k] = v: update in place if the key exists, else append. -/
def dictInsert : Files → String → String → Files
  | [], k, v => [(k, v)]
  | (k0, v0) :: t, k, v => if k0 = k then (k, v) :: t else (k0, v0) :: dictInsert t k v

/-- write_file from src/deepagents/tools.py: files[file_path] = content, and the
ToolMessage text the Command carries. Total: every input yields the success message. -/
def write_file (files : Files) (file_path content : String) : Files × String :=
  (dictInsert files file_path content, "Updated file " ++ file_path)

/-! ## read_file (src/deepagents/tools.py lines 38-81) -/

/-- The characters Python str.strip() removes / str.isspace() accepts. -/
def pyIsSpace (c : Char) : Bool :=
  c = ' ' ∨ c = '\t' ∨ c = '\n' ∨ c = '\r' ∨ c = '\x0b' ∨ c = '\x0c' ∨
  ('\x1c' ≤ c ∧ c ≤ '\x1f') ∨ c = '\x85' ∨ c = '\xa0' ∨ c = '\u1680' ∨
  ('\u2000' ≤ c ∧ c ≤ '\u200A') ∨ c = '\u2028' ∨ c = '\u2029' ∨
  c = '\u202F' ∨ c = '\u205F' ∨ c = '\u3000'

/-- Python `not content or content.strip() == ""`: true iff every char is whitespace. -/
def pyBlank (content : String) : Bool :=
  content.data.all pyIsSpace

/-- Line-break characters recognized by Python str.splitlines (besides the "\r\n" pair). -/
def pyLineBreak (c : Char) : Bool :=
  c = '\n' ∨ c = '\r' ∨ c = '\x0b' ∨ c = '\x0c' ∨ c = '\x1c' ∨ c = '\x1d' ∨
  c = '\x1e' ∨ c = '\x85' ∨ c = '\u2028' ∨ c = '\u2029'

/-- Helper for pySplitlines: acc holds the current line reversed. -/
def splitlinesAux : List Char → List Char → List String
  | [], acc => if acc.isEmpty then [] else [⟨acc.reverse⟩]
  | '\r' :: '\n' :: t, acc => ⟨acc.reverse⟩ :: splitlinesAux t []
  | c :: t, acc =>
    if pyLineBreak c then ⟨acc.reverse⟩ :: splitlinesAux t []
    else splitlinesAux t (c :: acc)

/-- Python str.splitlines(): no trailing empty line for a trailing terminator. -/
def pySplitlines (content : String) : List String :=
  splitlinesAux content.data []

/-- Python format spec value:6d — decimal, right-aligned in a field of width 6. -/
def padNum6 (n : Nat) : String :=
  let s := Nat.repr n
  ⟨List.replicate (6 - s.data.length) ' '⟩ ++ s

/-- Truncate a line to its first 2000 characters (read_file per-line truncation). -/
def truncate2000 (line : String) : String :=
  if line.data.length > 2000 then ⟨line.data.take 2000⟩ else line

/-- Join strings with a separator (the "\n".join of read_file output lines). -/
def joinSep (sep : String) : List String → String
  | [] => ""
  | [s] => s
  | s :: t => s ++ sep ++ joinSep sep t

/-- The numbered output lines of read_file for the window starting at 1-based line n. -/
def renderLines : Nat → List String → List String
  | _, [] => []
  | n, l :: t => (padNum6 n ++ "\t" ++ truncate2000 l) :: renderLines (n + 1) t

/-- The body of read_file after the file lookup succeeded: the formatting read
applies to a stored content string (empty-contents sentinel, offset check,
line numbering, per-line truncation, limit window). -/
def renderRead (content : String) (offset limit : Nat) : String :=
  if pyBlank content then "System reminder: File exists but has empty contents"
  else
    let lines := pySplitlines content
    if lines.length ≤ offset then
      "Error: Line offset " ++ Nat.repr offset ++ " exceeds file length (" ++
        Nat.repr lines.length ++ " lines)"
    else
      joinSep "\n"
        (renderLines (offset + 1)
          ((lines.drop offset).take (min (offset + limit) lines.length - offset)))

/-- read_file from src/deepagents/tools.py: look the path up in the store,
return the not-found error or the rendered content. -/
def read_file (files : Files) (file_path : String) (offset limit : Nat) : String :=
  match dictGet files file_path with
  | none => "Error: File '" ++ file_path ++ "' not found"
  | some content => renderRead content offset limit

/-! ## Basic store lemmas -/

theorem dictGet_insert_self (m : Files) (k v : String) :
    dictGet (dictInsert m k v) k = some v := by
  induction m with
  | nil => simp [dictInsert, dictGet]
  | cons h t ih =>
    obtain ⟨k0, v0⟩ := h
    by_cases hk : k0 = k
    · simp [dictInsert, hk, dictGet]
    · simp [dictInsert, hk, dictGet, ih]

theorem dictGet_insert_ne (m : Files) (k v q : String) (hq : q ≠ k) :
    dictGet (dictInsert m k v) q = dictGet m q := by
  have hk2 : k ≠ q := fun h => hq h.symm
  induction m with
  | nil => simp [dictInsert, dictGet, hk2]
  | cons h t ih =>
    obtain ⟨k0, v0⟩ := h
    by_cases hk : k0 = k
    · subst hk
      simp [dictInsert, dictGet, hk2]
    · simp [dictInsert, hk, dictGet, ih]

/-- C1: for every store, path and content, writing the content and then reading
the path back with the default offset 0 and limit 2000 returns exactly the
written content as rendered by the formatting read_file applies (renderRead:
line numbering, per-line truncation to 2000 characters, the empty-contents
sentinel, and the default 2000-line window). -/
theorem write_then_read_roundtrip (files : Files) (path content : String) :
    read_file (write_file files path content).1 path 0 2000 =
      renderRead content 0 2000 := by
  simp [read_file, write_file, dictGet_insert_self]

/-- C9: write_file is total and frame-preserving: it always returns the success
message (never an error), the written path maps to the new content, and every
other path maps to exactly its previous content. -/
theorem write_file_frame (files : Files) (path content q : String) :
    dictGet (write_file files path content).1 path = some content ∧
    (q ≠ path → dictGet (write_file files path content).1 q = dictGet files q) ∧
    (write_file files path content).2 = "Updated file " ++ path := by
  refine ⟨?_, ?_, rfl⟩
  · simp [write_file, dictGet_insert_self]
  · intro hq
    simp [write_file, dictGet_insert_ne _ _ _ _ hq]

/-- Witness for C9 at a concrete store: writing b.txt leaves a.txt intact. -/
theorem write_file_frame_witness :
    dictGet (write_file [("a.txt", "alpha")] "b.txt" "beta").1 "b.txt" = some "beta" ∧
    dictGet (write_file [("a.txt", "alpha")] "b.txt" "beta").1 "a.txt" =
      dictGet [("a.txt", "alpha")] "a.txt" := by
  have h := write_file_frame [("a.txt", "alpha")] "b.txt" "beta" "a.txt"
  exact ⟨h.1, h.2.1 (by decide)⟩

/-! ## edit_file (src/deepagents/tools.py lines 103-151)

Python string primitives used by edit_file. str.count scans left to right
counting non-overlapping occurrences; the scan consumes at least one character
of the subject per step, so a fuel of the subject length is always sufficient
and the definitions stay structurally recursive (hence kernel-evaluable). -/

/-- One step per unit of fuel: count non-overlapping occurrences of sub. -/
def countAuxF (sub : List Char) : Nat → List Char → Nat
  | 0, _ => 0
  | _ + 1, [] => 0
  | f + 1, s@(_ :: t) =>
    if sub.isPrefixOf s then 1 + countAuxF sub f (s.drop sub.length)
    else countAuxF sub f t

/-- Python content.count(sub): the empty substring counts len+1 gap positions. -/
def pyCount (s sub : String) : Nat :=
  if sub.data = [] then s.data.length + 1
  else countAuxF sub.data s.data.length s.data

/-- Python `sub in s` substring containment. -/
def containsAux (sub : List Char) : List Char → Bool
  | [] => sub.isEmpty
  | s@(_ :: t) => sub.isPrefixOf s || containsAux sub t

/-- Python `sub in s`. -/
def pyContains (s sub : String) : Bool :=
  containsAux sub.data s.data

/-- Replace all non-overlapping occurrences, one step per unit of fuel. -/
def replaceAuxF (old new : List Char) : Nat → List Char → List Char
  | 0, s => s
  | _ + 1, [] => []
  | f + 1, s@(c :: t) =>
    if old.isPrefixOf s then new ++ replaceAuxF old new f (s.drop old.length)
    else c :: replaceAuxF old new f t

/-- Interleave new between the characters (Python replace with empty old). -/
def interAll (new : List Char) : List Char → List Char
  | [] => []
  | c :: t => c :: (new ++ interAll new t)

/-- Python s.replace(old, new): all occurrences; empty old inserts new at every gap. -/
def pyReplace (s old new : String) : String :=
  if old.data = [] then ⟨new.data ++ interAll new.data s.data⟩
  else ⟨replaceAuxF old.data new.data s.data.length s.data⟩

/-- Replace only the first occurrence (Python s.replace(old, new, 1)). -/
def replaceFirstAux (old new : List Char) : List Char → List Char
  | [] => []
  | s@(c :: t) =>
    if old.isPrefixOf s then new ++ s.drop old.length
    else c :: replaceFirstAux old new t

/-- Python s.replace(old, new, 1). -/
def pyReplaceFirst (s old new : String) : String :=
  if old.data = [] then ⟨new.data ++ s.data⟩
  else ⟨replaceFirstAux old.data new.data s.data⟩

/-- The ambiguous-target error message of edit_file. -/
def ambiguousMsg (old : String) (n : Nat) : String :=
  "Error: String '" ++ old ++ "' appears " ++ Nat.repr n ++
    " times in file. Use replace_all=True to replace all instances, or provide a more specific string with surrounding context."

/-- edit_file from src/deepagents/tools.py: returns the ToolMessage text and
the resulting store. Error branches return before any mutation, so they pair
the message with the unchanged store. -/
def edit_file (files : Files) (file_path old_string new_string : String)
    (replace_all : Bool) : String × Files :=
  match dictGet files file_path with
  | none => ("Error: File '" ++ file_path ++ "' not found", files)
  | some content =>
    if ¬ pyContains content old_string then
      ("Error: String not found in file: '" ++ old_string ++ "'", files)
    else if ¬ replace_all ∧ pyCount content old_string > 1 then
      (ambiguousMsg old_string (pyCount content old_string), files)
    else if ¬ replace_all ∧ pyCount content old_string = 0 then
      ("Error: String not found in file: '" ++ old_string ++ "'", files)
    else if replace_all then
      ("Successfully replaced " ++ Nat.repr (pyCount content old_string) ++
         " instance(s) of the string in '" ++ file_path ++ "'",
       dictInsert files file_path (pyReplace content old_string new_string))
    else
      ("Successfully replaced string in '" ++ file_path ++ "'",
       dictInsert files file_path (pyReplaceFirst content old_string new_string))

theorem countAuxF_pos_contains (sub : List Char) (f : Nat) (s : List Char)
    (h : 0 < countAuxF sub f s) : containsAux sub s = true := by
  induction f generalizing s with
  | zero => simp [countAuxF] at h
  | succ f ih =>
    cases s with
    | nil => simp [countAuxF] at h
    | cons c t =>
      by_cases hp : sub.isPrefixOf (c :: t)
      · simp [containsAux, hp]
      · simp only [countAuxF, if_neg hp] at h
        simp [containsAux, ih _ h]

theorem pyCount_pos_pyContains (s sub : String) (h : 0 < pyCount s sub) :
    pyContains s sub = true := by
  unfold pyCount at h
  unfold pyContains
  by_cases he : sub.data = []
  · cases hs : s.data with
    | nil => simp [containsAux, he, List.isEmpty]
    | cons c t => simp [containsAux, he, List.isPrefixOf]
  · rw [if_neg he] at h
    exact countAuxF_pos_contains _ _ _ h

/-- C2: if the stored content contains old_string more than once, edit_file with
replace_all = false returns the ambiguous-target error message and the store is
returned completely unchanged (atomicity on error). -/
theorem edit_file_ambiguous (files : Files) (path old new content : String)
    (hfile : dictGet files path = some content)
    (hcount : 1 < pyCount content old) :
    edit_file files path old new false =
      (ambiguousMsg old (pyCount content old), files) := by
  have hcontains : pyContains content old = true :=
    pyCount_pos_pyContains content old (Nat.lt_of_lt_of_le Nat.zero_lt_one hcount.le)
  unfold edit_file
  rw [hfile]
  simp [hcontains, hcount]

/-- Witness for C2: content "xyx" contains "x" twice; the edit fails with the
ambiguous-target message and the store is unchanged. -/
theorem edit_file_ambiguous_witness :
    edit_file [("f.txt", "xyx")] "f.txt" "x" "y" false =
      (ambiguousMsg "x" 2, [("f.txt", "xyx")]) := by
  have h := edit_file_ambiguous [("f.txt", "xyx")] "f.txt" "x" "y" "xyx"
    (by decide) (by decide)
  have hc : pyCount "xyx" "x" = 2 := by decide
  rw [hc] at h
  exact h

/-- C8: edit_file with replace_all = true on content "aXaXa", replacing "a" by
"b", stores "bXbXb" and reports exactly 3 replacements. -/
theorem edit_file_replace_all_three :
    edit_file [("f.txt", "aXaXa")] "f.txt" "a" "b" true =
      ("Successfully replaced 3 instance(s) of the string in 'f.txt'",
       [("f.txt", "bXbXb")]) := by
  decide

/-! ## fnmatch (Python stdlib, as called by glob in src/deepagents/tools.py)

Shell-style wildcard matching: * matches any character sequence (including
the path separator, since fnmatch translates * to a dot-star regex), ? any
single character, [seq] a character class with ranges and ! negation.
The matcher consumes at least one pattern or one subject character per step,
so a fuel of pattern length + subject length + 1 is always sufficient; the
fuel keeps the recursion structural so concrete calls kernel-evaluate. -/

/-- Scan for the closing bracket of a character class; content before it, rest after. -/
def scanClose : List Char → Option (List Char × List Char)
  | [] => none
  | ']' :: t => some ([], t)
  | c :: t => (scanClose t).map (fun p => (c :: p.1, p.2))

/-- Parse a [seq] class body: a leading ! and a then-leading ] are part of the
content (fnmatch skips them before searching for the closing bracket). Returns
none when there is no closing bracket, in which case [ is a literal. -/
def parseBracket (cs : List Char) : Option (List Char × List Char) :=
  match cs with
  | '!' :: ']' :: t => (scanClose t).map (fun p => ('!' :: ']' :: p.1, p.2))
  | '!' :: t => (scanClose t).map (fun p => ('!' :: p.1, p.2))
  | ']' :: t => (scanClose t).map (fun p => (']' :: p.1, p.2))
  | t => (scanClose t).map (fun p => (p.1, p.2))

/-- Items of a character class: a-b ranges, otherwise singleton characters. -/
def setItems : List Char → List (Char × Char)
  | a :: '-' :: b :: t => (a, b) :: setItems t
  | a :: t => (a, a) :: setItems t
  | [] => []

/-- Membership of a character in the parsed class items. -/
def charInSet (c : Char) (items : List (Char × Char)) : Bool :=
  items.any (fun p => p.1 ≤ c ∧ c ≤ p.2)

/-- Fuel-indexed wildcard matcher: pattern against subject. -/
def wildMatchF : Nat → List Char → List Char → Bool
  | 0, _, _ => false
  | _ + 1, [], s => s.isEmpty
  | f + 1, '*' :: ps, s =>
    wildMatchF f ps s ||
      (match s with
       | [] => false
       | _ :: t => wildMatchF f ('*' :: ps) t)
  | f + 1, '?' :: ps, s =>
    (match s with
     | [] => false
     | _ :: t => wildMatchF f ps t)
  | f + 1, '[' :: ps, s =>
    (match parseBracket ps with
     | none =>
       (match s with
        | c :: t => '[' = c && wildMatchF f ps t
        | [] => false)
     | some (content, rest) =>
       (match s with
        | [] => false
        | c :: t =>
          (match content with
           | '!' :: items => !(charInSet c (setItems items))
           | items => charInSet c (setItems items)) && wildMatchF f rest t))
  | f + 1, p :: ps, s =>
    (match s with
     | c :: t => p = c && wildMatchF f ps t
     | [] => false)

/-- fnmatch.fnmatch on a POSIX platform (normcase is the identity there). -/
def fnmatch (name pat : String) : Bool :=
  wildMatchF (pat.data.length + name.data.length + 1) pat.data name.data

/-! ## glob over the Virtual Store (src/deepagents/tools.py lines 154-247) -/

/-- Character count of a string (Python len counts code points). -/
def strLen (s : String) : Nat := s.data.length

/-- Python slicing s[n:] by characters. -/
def strDrop (s : String) (n : Nat) : String := ⟨s.data.drop n⟩

/-- Python s.startswith(pre). -/
def strStartsWith (s pre : String) : Bool := pre.data.isPrefixOf s.data

/-- Python s.lstrip. -/
def lstripSlash (s : String) : String := ⟨s.data.dropWhile (· = '/')⟩

/-- Python s.rstrip. -/
def rstripSlash (s : String) : String := ⟨(s.data.reverse.dropWhile (· = '/')).reverse⟩

/-- Python "/" in s. -/
def hasSlash (s : String) : Bool := s.data.contains '/'

/-- Python s.split("/")[-1]: the leaf after the last separator. -/
def leafOf (s : String) : String := ⟨(s.data.reverse.takeWhile (· ≠ '/')).reverse⟩

/-- Helper for splitChar; acc holds the current piece reversed. -/
def splitCharAux (sep : Char) : List Char → List Char → List String
  | [], acc => [⟨acc.reverse⟩]
  | c :: t, acc =>
    if c = sep then ⟨acc.reverse⟩ :: splitCharAux sep t []
    else splitCharAux sep t (c :: acc)

/-- Python s.split(sep) for a single-character separator (keeps empty pieces). -/
def splitChar (s : String) (sep : Char) : List String := splitCharAux sep s.data []

/-- Lexicographic comparison by code point, the order Python sorts strings by. -/
def charListLe : List Char → List Char → Bool
  | [], _ => true
  | _ :: _, [] => false
  | a :: as, b :: bs =>
    if a.toNat < b.toNat then true
    else if b.toNat < a.toNat then false
    else charListLe as bs

/-- Python string ≤ (code-point lexicographic). -/
def strLeB (a b : String) : Bool := charListLe a.data b.data

/-- Insertion step of the sorting model for results.sort(). -/
def insertStr (x : String) : List String → List String
  | [] => [x]
  | y :: t => if strLeB x y then x :: y :: t else y :: insertStr x t

/-- Model of Python list.sort() on strings (insertion sort, same order). -/
def pySortStr : List String → List String
  | [] => []
  | x :: t => insertStr x (pySortStr t)

/-- The candidate filter of glob: inside the search path, and for
non-recursive searches with a nonempty search path, a direct child only. -/
def globKeep (sp : String) (recursive : Bool) (fp : String) : Bool :=
  if sp ≠ "" ∧ ¬ strStartsWith fp sp then false
  else if ¬ recursive ∧ sp ≠ "" then ¬ hasSlash (lstripSlash (strDrop fp (strLen sp)))
  else true

/-- The relative path used for pattern matching, none when glob skips the path. -/
def globRel (sp fp : String) : Option String :=
  if sp ≠ "" then
    if strStartsWith fp sp then some (lstripSlash (strDrop fp (strLen sp))) else none
  else some fp

/-- The parent-directory paths glob generates for one candidate when
include_dirs is set (each joined prefix of the split path, slash-terminated,
filtered against the search path before the slash is appended). -/
def parentDirs (sp fp : String) : List String :=
  let parts := splitChar fp '/'
  ((List.range parts.length).drop 1).filterMap (fun i =>
    let d := joinSep "/" (parts.take i)
    if sp = "" ∨ strStartsWith d sp then some (d ++ "/") else none)

/-- Deduplicate keeping first occurrences. glob collects directory paths in a
Python set whose iteration order is unspecified; this determinizes it to
insertion order, which none of the proved properties depend on. -/
def dedupFirst (xs : List String) : List String :=
  xs.foldl (fun a x => if x ∈ a then a else a ++ [x]) []

/-- The directory paths added when include_dirs is set. -/
def dirPathsOf (sp : String) (candidates : List String) : List String :=
  dedupFirst (candidates.foldl (fun a fp => a ++ parentDirs sp fp) [])

/-- The matching loop of glob: stops once max_results matches are collected;
a path matches on its relative path, or, for recursive searches on a relative
path with a separator, on its leaf filename (the fallback rule). -/
def globLoop (sp pat : String) (recursive : Bool) (m : Nat) :
    List String → List String → List String
  | [], acc => acc
  | fp :: rest, acc =>
    if m ≤ acc.length then acc
    else
      match globRel sp fp with
      | none => globLoop sp pat recursive m rest acc
      | some rel =>
        if fnmatch rel pat then globLoop sp pat recursive m rest (acc ++ [fp])
        else if recursive ∧ hasSlash rel then
          (if fnmatch (leafOf rel) pat then globLoop sp pat recursive m rest (acc ++ [fp])
           else globLoop sp pat recursive m rest acc)
        else globLoop sp pat recursive m rest acc

/-- glob from src/deepagents/tools.py, as the sorted result list the tool then
renders into its output string. An empty store returns early (empty list view). -/
def glob (files : Files) (pattern path : String) (max_results : Nat)
    (include_dirs recursive : Bool) : List String :=
  if files = [] then []
  else
    let sp0 := rstripSlash path
    let sp := if sp0 = "." then "" else sp0
    let candidates := (files.map Prod.fst).filter (globKeep sp recursive)
    let allPaths := candidates ++ (if include_dirs then dirPathsOf sp candidates else [])
    pySortStr (globLoop sp pattern recursive max_results allPaths [])

/-! ### Order lemmas for the sort model -/

theorem charListLe_total (a : List Char) : ∀ b, charListLe a b = true ∨ charListLe b a = true := by
  induction a with
  | nil => intro b; left; simp [charListLe]
  | cons x xs ih =>
    intro b
    cases b with
    | nil => right; simp [charListLe]
    | cons y ys =>
      by_cases h1 : x.toNat < y.toNat
      · left; simp [charListLe, h1]
      · by_cases h2 : y.toNat < x.toNat
        · right; simp [charListLe, h2]
        · rcases ih ys with h | h
          · left; simp [charListLe, h1, h2, h]
          · right; simp [charListLe, h1, h2, h]

theorem charListLe_trans (a : List Char) :
    ∀ b c, charListLe a b = true → charListLe b c = true → charListLe a c = true := by
  induction a with
  | nil => intro b c _ _; simp [charListLe]
  | cons x xs ih =>
    intro b c hab hbc
    cases b with
    | nil => simp [charListLe] at hab
    | cons y ys =>
      cases c with
      | nil => simp [charListLe] at hbc
      | cons z zs =>
        simp only [charListLe] at hab hbc ⊢
        rcases Nat.lt_trichotomy x.toNat y.toNat with h1 | h1 | h1 <;>
          rcases Nat.lt_trichotomy y.toNat z.toNat with h2 | h2 | h2
        · simp [Nat.lt_trans h1 h2]
        · simp [h2 ▸ h1]
        · simp [Nat.lt_asymm h2, h2] at hbc
        · simp [h1 ▸ h2]
        · simp only [h1, h2] at hab hbc ⊢
          simp only [Nat.lt_irrefl, if_neg (Nat.lt_irrefl _)] at hab hbc ⊢
          simp at hab hbc ⊢
          exact ih ys zs hab hbc
        · simp [Nat.lt_asymm h2, h2] at hbc
        · simp [Nat.lt_asymm h1, h1] at hab
        · simp [Nat.lt_asymm h1, h1] at hab
        · simp [Nat.lt_asymm h1, h1] at hab

theorem strLeB_total (a b : String) : strLeB a b = true ∨ strLeB b a = true :=
  charListLe_total a.data b.data

theorem strLeB_trans (a b c : String) (hab : strLeB a b = true)
    (hbc : strLeB b c = true) : strLeB a c = true :=
  charListLe_trans a.data b.data c.data hab hbc

theorem mem_insertStr (x z : String) (l : List String) (h : z ∈ insertStr x l) :
    z = x ∨ z ∈ l := by
  induction l with
  | nil =>
    simp [insertStr] at h
    exact Or.inl h
  | cons y t ih =>
    simp only [insertStr] at h
    split at h
    · rcases List.mem_cons.mp h with h | h
      · exact Or.inl h
      · exact Or.inr h
    · rcases List.mem_cons.mp h with h | h
      · exact Or.inr (h ▸ List.mem_cons_self y t)
      · rcases ih h with h | h
        · exact Or.inl h
        · exact Or.inr (List.mem_cons_of_mem y h)

theorem pairwise_insertStr (x : String) (l : List String)
    (hl : l.Pairwise (fun a b => strLeB a b = true)) :
    (insertStr x l).Pairwise (fun a b => strLeB a b = true) := by
  induction l with
  | nil => simp [insertStr]
  | cons y t ih =>
    rw [List.pairwise_cons] at hl
    obtain ⟨hy, ht⟩ := hl
    simp only [insertStr]
    split
    case isTrue hxy =>
      rw [List.pairwise_cons]
      refine ⟨?_, ?_⟩
      · intro z hz
        rcases List.mem_cons.mp hz with rfl | hz
        · exact hxy
        · exact strLeB_trans x y z hxy (hy z hz)
      · rw [List.pairwise_cons]
        exact ⟨hy, ht⟩
    case isFalse hxy =>
      have hyx : strLeB y x = true := by
        rcases strLeB_total x y with h | h
        · exact absurd h hxy
        · exact h
      rw [List.pairwise_cons]
      refine ⟨?_, ih ht⟩
      intro z hz
      rcases mem_insertStr x z t hz with rfl | hz
      · exact hyx
      · exact hy z hz

theorem pairwise_pySortStr (l : List String) :
    (pySortStr l).Pairwise (fun a b => strLeB a b = true) := by
  induction l with
  | nil => simp [pySortStr]
  | cons x t ih => exact pairwise_insertStr x _ ih

theorem length_insertStr (x : String) (l : List String) :
    (insertStr x l).length = l.length + 1 := by
  induction l with
  | nil => simp [insertStr]
  | cons y t ih =>
    simp only [insertStr]
    split
    · simp
    · simp [ih]

theorem length_pySortStr (l : List String) : (pySortStr l).length = l.length := by
  induction l with
  | nil => simp [pySortStr]
  | cons x t ih => simp [pySortStr, length_insertStr, ih]

theorem globLoop_length_le (sp pat : String) (recursive : Bool) (m : Nat)
    (paths : List String) :
    ∀ acc : List String, acc.length ≤ m →
      (globLoop sp pat recursive m paths acc).length ≤ m := by
  induction paths with
  | nil => intro acc h; simpa [globLoop] using h
  | cons fp rest ih =>
    intro acc h
    simp only [globLoop]
    split
    case isTrue => exact h
    case isFalse hlt =>
      have hlt2 : acc.length < m := Nat.lt_of_not_le hlt
      have happ : (acc ++ [fp]).length ≤ m := by
        simpa [List.length_append] using hlt2
      cases hrel : globRel sp fp with
      | none => exact ih acc h
      | some rel =>
        simp only
        split
        · exact ih _ happ
        · split
          · split
            · exact ih _ happ
            · exact ih acc h
          · exact ih acc h

/-- C5: glob with pattern *.py over the store holding src/a.py and src/pkg/b.py
(path ".", recursive, default cap 100) returns both paths — the nested one is
reachable because a failed relative-path match falls back to the leaf filename
(and * itself crosses separators) — and for every input the glob result list is
sorted in Python string order and its length never exceeds max_results. -/
theorem glob_star_py_sorted_capped :
    glob [("src/a.py", "A"), ("src/pkg/b.py", "B")] "*.py" "." 100 false true =
      ["src/a.py", "src/pkg/b.py"] ∧
    ∀ (files : Files) (pattern path : String) (m : Nat) (include_dirs recursive : Bool),
      ((glob files pattern path m include_dirs recursive).Pairwise
          (fun a b => strLeB a b = true)) ∧
        (glob files pattern path m include_dirs recursive).length ≤ m := by
  refine ⟨by decide, ?_⟩
  intro files pattern path m include_dirs recursive
  unfold glob
  split
  · simp
  · refine ⟨pairwise_pySortStr _, ?_⟩
    rw [length_pySortStr]
    exact globLoop_length_le _ _ _ _ _ [] (Nat.zero_le m)

/-! ## Approval gate with caching (examples/code/post_model_hook.py)

The hook walks the proposed tool-call batch in order. Calls whose name is in
the configured set consult the approval cache keyed by
"command:normalizedDirectory"; a cache miss raises one human prompt, an
approval adds the key and keeps the call, a rejection drops it. Calls outside
the set pass through untouched. The human decisions are modelled by an oracle
indexed by the number of prompts raised so far. -/

/-- A proposed tool call: name and arguments (string-valued, as the key
derivation reads them). -/
structure ToolCall where
  name : String
  args : List (String × String)
deriving DecidableEq, Repr

/-- Python truthiness of an optional string (None and "" are falsy). -/
def truthy : Option String → Bool
  | none => false
  | some s => s ≠ ""

/-- Python `a or b` over optional strings. -/
def pyOr (a b : Option String) : Option String := if truthy a then a else b

/-- os.path.normpath for POSIX paths (CPython posixpath.normpath). -/
def pyNormpath (p : String) : String :=
  if p = "" then "."
  else
    let slashes : Nat :=
      if strStartsWith p "/" then
        (if strStartsWith p "//" ∧ ¬ strStartsWith p "///" then 2 else 1)
      else 0
    let comps := splitChar p '/'
    let newComps := comps.foldl (fun acc comp =>
      if comp = "" ∨ comp = "." then acc
      else if comp ≠ ".." ∨ (slashes = 0 ∧ acc = []) ∨ (acc ≠ [] ∧ acc.getLast? = some "..") then
        acc ++ [comp]
      else if acc ≠ [] then acc.dropLast
      else acc) []
    let joined := (⟨List.replicate slashes '/'⟩ : String) ++ joinSep "/" newComps
    if joined = "" then "." else joined

/-- Whether a path ends with the separator (for posixpath.join). -/
def endsWithSlash (a : String) : Bool :=
  match a.data.getLast? with
  | some '/' => true
  | _ => false

/-- posixpath.join for two components. -/
def pyJoin (a b : String) : String :=
  if strStartsWith b "/" then b
  else if a = "" ∨ endsWithSlash a then a ++ b
  else a ++ "/" ++ b

/-- os.path.abspath: join with the working directory when relative, then normalize. -/
def pyAbspath (cwd p : String) : String :=
  if strStartsWith p "/" then pyNormpath p else pyNormpath (pyJoin cwd p)

/-- Position one past the last separator (Python rfind plus one, 0 if absent). -/
def lastSlashEnd : List Char → Nat → Nat → Nat
  | [], _, best => best
  | c :: t, pos, best => lastSlashEnd t (pos + 1) (if c = '/' then pos + 1 else best)

/-- os.path.dirname for POSIX paths. -/
def pyDirname (p : String) : String :=
  let head := p.data.take (lastSlashEnd p.data 0 0)
  if head ≠ [] ∧ ¬ head.all (· = '/') then ⟨(head.reverse.dropWhile (· = '/')).reverse⟩
  else ⟨head⟩

/-- The file-operation commands whose key uses the parent directory of the target. -/
def fileCmds : List String := ["write_file", "str_replace_based_edit_tool", "edit_file"]

/-- get_approval_key from examples/code/post_model_hook.py:
"command:normalizedDirectory", where the directory is the parent of the target
for file operations, the cwd argument for process execution, and the path or
directory argument for the listing and search operations, falling back to the
working directory whenever unset. -/
def get_approval_key (cwd command : String) (args : List (String × String)) : String :=
  let targetDir : Option String :=
    if command ∈ fileCmds then
      let fp := pyOr (dictGet args "file_path") (dictGet args "path")
      if truthy fp then some (pyDirname (pyAbspath cwd (fp.getD ""))) else none
    else if command = "execute_bash" then
      pyOr (dictGet args "cwd") (some cwd)
    else if command ∈ ["ls", "glob", "grep"] then
      pyOr (pyOr (dictGet args "path") (dictGet args "directory")) (some cwd)
    else none
  let td := if truthy targetDir then targetDir.getD "" else cwd
  command ++ ":" ++ pyNormpath td

/-- The tool names the hook gates (the write_tools set of the source — note it
contains the listing and search tools ls, glob and grep, but not read_file). -/
def write_tools : List String :=
  ["write_file", "execute_bash", "str_replace_based_edit_tool", "ls", "edit_file", "glob", "grep"]

/-- Python set.add on the cache modelled as an insertion-ordered list. -/
def addApproval (cache : List String) (k : String) : List String :=
  if k ∈ cache then cache else cache ++ [k]

/-- The outcome of one hook run over a batch: the surviving tool calls, the
final cache, and the approval keys that were prompted for, in order. -/
structure HookOut where
  approved : List ToolCall
  cache : List String
  prompts : List String
deriving DecidableEq, Repr

/-- post_model_hook from examples/code/post_model_hook.py, as a function of the
batch, the cache and the prompt history; oracle n is the human decision for the
n-th prompt of the run. -/
def post_model_hook (cwd : String) (oracle : Nat → Bool) :
    List ToolCall → List String → List String → HookOut
  | [], cache, prompts => ⟨[], cache, prompts⟩
  | tc :: rest, cache, prompts =>
    if tc.name ∈ write_tools then
      if get_approval_key cwd tc.name tc.args ∈ cache then
        let r := post_model_hook cwd oracle rest cache prompts
        ⟨tc :: r.approved, r.cache, r.prompts⟩
      else if oracle prompts.length then
        let r := post_model_hook cwd oracle rest
          (addApproval cache (get_approval_key cwd tc.name tc.args))
          (prompts ++ [get_approval_key cwd tc.name tc.args])
        ⟨tc :: r.approved, r.cache, r.prompts⟩
      else
        post_model_hook cwd oracle rest cache
          (prompts ++ [get_approval_key cwd tc.name tc.args])
    else
      let r := post_model_hook cwd oracle rest cache prompts
      ⟨tc :: r.approved, r.cache, r.prompts⟩

/-- Counterexample to C3 as stated: a single ls call (a read-only listing
operation) with an empty cache does enter the gate — it raises a prompt, and
when the human denies it the call is dropped. ls, glob and grep are members of
the gated write_tools set. -/
theorem ls_enters_gate_counterexample :
    post_model_hook "/root" (fun _ => false) [⟨"ls", [("path", "/tmp")]⟩] [] [] =
      ⟨[], [], ["ls:/tmp"]⟩ ∧ "ls" ∈ write_tools := by
  decide

/-- C3 amended: only tool calls whose names are outside the configured
write_tools set — read_file among them — bypass the gate: they are passed
through unchanged, with no prompt raised and the cache neither consulted nor
updated. The read-only ls, glob and grep are inside the set and are gated. -/
theorem nongated_calls_bypass_gate :
    "read_file" ∉ write_tools ∧
    ∀ (cwd : String) (oracle : Nat → Bool) (calls : List ToolCall)
      (cache prompts : List String),
      (∀ tc ∈ calls, tc.name ∉ write_tools) →
      post_model_hook cwd oracle calls cache prompts = ⟨calls, cache, prompts⟩ := by
  refine ⟨by decide, ?_⟩
  intro cwd oracle calls cache prompts h
  induction calls with
  | nil => rfl
  | cons tc rest ih =>
    have htc : tc.name ∉ write_tools := h tc (List.mem_cons_self tc rest)
    have hrest : ∀ x ∈ rest, x.name ∉ write_tools :=
      fun x hx => h x (List.mem_cons_of_mem tc hx)
    simp only [post_model_hook, if_neg htc]
    rw [ih hrest]

/-- Witness for the amended C3: a read_file call passes through untouched. -/
theorem nongated_calls_bypass_gate_witness :
    post_model_hook "/root" (fun _ => true) [⟨"read_file", [("file_path", "/tmp/a")]⟩]
        ["edit_file:/srv"] [] =
      ⟨[⟨"read_file", [("file_path", "/tmp/a")]⟩], ["edit_file:/srv"], []⟩ :=
  nongated_calls_bypass_gate.2 "/root" (fun _ => true) _ _ _ (by decide)

/-- C4: two identical gated requests with an uncached key raise exactly one
prompt; the first approval adds the key command:normalizedDirectory to the
cache, and the second call is auto-approved from the cache without prompting. -/
theorem duplicate_request_single_prompt (cwd name : String)
    (args : List (String × String)) (cache : List String)
    (hname : name ∈ write_tools)
    (hkey : get_approval_key cwd name args ∉ cache) :
    post_model_hook cwd (fun _ => true) [⟨name, args⟩, ⟨name, args⟩] cache [] =
      ⟨[⟨name, args⟩, ⟨name, args⟩], cache ++ [get_approval_key cwd name args],
        [get_approval_key cwd name args]⟩ ∧
    ∃ d, get_approval_key cwd name args = name ++ ":" ++ d := by
  constructor
  · have hmem : get_approval_key cwd name args ∈
        addApproval cache (get_approval_key cwd name args) := by
      simp [addApproval, hkey]
    simp only [post_model_hook, if_pos hname, if_neg hkey, if_pos hmem, if_true]
    simp [addApproval, hkey]
  · exact ⟨_, rfl⟩

/-- Witness for C4: a concrete duplicated write_file call in /tmp. -/
theorem duplicate_request_single_prompt_witness :
    post_model_hook "/root" (fun _ => true)
        [⟨"write_file", [("file_path", "/tmp/a.txt")]⟩,
         ⟨"write_file", [("file_path", "/tmp/a.txt")]⟩] [] [] =
      ⟨[⟨"write_file", [("file_path", "/tmp/a.txt")]⟩,
        ⟨"write_file", [("file_path", "/tmp/a.txt")]⟩],
        ["write_file:/tmp"], ["write_file:/tmp"]⟩ := by
  have h := (duplicate_request_single_prompt "/root" "write_file"
    [("file_path", "/tmp/a.txt")] [] (by decide) (by decide)).1
  have hk : get_approval_key "/root" "write_file" [("file_path", "/tmp/a.txt")] =
      "write_file:/tmp" := by decide
  rw [hk] at h
  simpa using h

/-! ## interrupt_hook (src/deepagents/interrupt.py)

The hook built by create_interrupt_hook splits the batch into the calls whose
tool name is configured for interrupts and the auto-approved rest; it refuses
batches with more than one gated call, prompts for the single gated call, and
on acceptance appends that call after the auto-approved ones. -/

/-- The human resume value for an interrupt request. -/
inductive HumanResponse where
  | accept
  | edit (action : String) (args : List (String × String))
  | response (content : String)
  | other (t : String)
deriving DecidableEq, Repr

/-- Outcome of the interrupt hook: no change, a raised ValueError aborting the
step, a replaced tool-call list on the message, or a substituted tool message. -/
inductive IHResult where
  | noChange
  | stepError (msg : String)
  | replaced (toolCalls : List ToolCall)
  | toolMessage (content : String)
deriving DecidableEq, Repr

/-- The ValueError message for a batch with several gated calls. -/
def interruptMultiMsg : String :=
  "Right now, interrupt hook only works when one tool requires interrupts"

/-- interrupt_hook from src/deepagents/interrupt.py; tool_configs is the set of
gated tool names, resp the single human response, and the Bool records whether
a prompt was raised before returning. -/
def interrupt_hook (tool_configs : List String) (calls : List ToolCall)
    (resp : HumanResponse) : IHResult × Bool :=
  if calls = [] then (IHResult.noChange, false)
  else
    let gated := calls.filter (fun tc => tc.name ∈ tool_configs)
    let auto := calls.filter (fun tc => tc.name ∉ tool_configs)
    if gated = [] then (IHResult.noChange, false)
    else if 1 < gated.length then (IHResult.stepError interruptMultiMsg, false)
    else
      match gated with
      | [] => (IHResult.noChange, false)
      | tc :: _ =>
        match resp with
        | HumanResponse.accept => (IHResult.replaced (auto ++ [tc]), true)
        | HumanResponse.edit a as => (IHResult.replaced (auto ++ [⟨a, as⟩]), true)
        | HumanResponse.response c => (IHResult.toolMessage c, true)
        | HumanResponse.other t =>
          (IHResult.stepError ("Unknown response type: " ++ t), true)

/-- C10: whenever a batch contains two or more tool calls whose names are in
the interrupt configuration, the hook raises the ValueError (aborting the
step) without raising any human prompt. -/
theorem interrupt_hook_multi_gated_error (tool_configs : List String)
    (calls : List ToolCall) (resp : HumanResponse)
    (h : 2 ≤ (calls.filter (fun tc => tc.name ∈ tool_configs)).length) :
    interrupt_hook tool_configs calls resp =
      (IHResult.stepError interruptMultiMsg, false) := by
  have hne : calls ≠ [] := by
    intro he
    subst he
    simp at h
  have hg : calls.filter (fun tc => tc.name ∈ tool_configs) ≠ [] := by
    intro he
    rw [he] at h
    simp at h
  have hgt : 1 < (calls.filter (fun tc => tc.name ∈ tool_configs)).length :=
    Nat.lt_of_lt_of_le Nat.one_lt_two h
  simp [interrupt_hook, hne, hg, hgt]

/-- Witness for C10: two configured write_file calls in one batch abort. -/
theorem interrupt_hook_multi_gated_error_witness :
    interrupt_hook ["write_file"]
        [⟨"write_file", [("file_path", "/tmp/a")]⟩,
         ⟨"write_file", [("file_path", "/tmp/b")]⟩] HumanResponse.accept =
      (IHResult.stepError interruptMultiMsg, false) :=
  interrupt_hook_multi_gated_error _ _ _ (by decide)

/-- Counterexample to C6 as stated: interrupt_hook does not keep proposal
order. On the batch [write_file, read_file] with write_file gated and accepted,
both calls survive but the hook emits them as [read_file, write_file] — the
gated call is appended after the auto-approved ones, which is not a
subsequence of the proposed order. -/
theorem interrupt_hook_reorders_counterexample :
    interrupt_hook ["write_file"]
        [⟨"write_file", [("file_path", "/tmp/a")]⟩, ⟨"read_file", []⟩]
        HumanResponse.accept =
      (IHResult.replaced
        [⟨"read_file", []⟩, ⟨"write_file", [("file_path", "/tmp/a")]⟩], true) ∧
    ¬ List.Sublist
        [(⟨"read_file", []⟩ : ToolCall), ⟨"write_file", [("file_path", "/tmp/a")]⟩]
        [⟨"write_file", [("file_path", "/tmp/a")]⟩, ⟨"read_file", []⟩] := by
  constructor
  · decide
  · intro hsub
    have heq := hsub.eq_of_length rfl
    exact absurd heq (by decide)

/-- C6 amended: the example post_model_hook does execute survivors in proposal
order — for every batch, cache, prompt history and decision oracle the
approved tool calls form a subsequence of the proposed batch — but the
interrupt_hook of src/deepagents/interrupt.py moves the single gated call
after the auto-approved ones. -/
theorem post_model_hook_preserves_order (cwd : String) (oracle : Nat → Bool)
    (calls : List ToolCall) : ∀ (cache prompts : List String),
    List.Sublist (post_model_hook cwd oracle calls cache prompts).approved calls := by
  induction calls with
  | nil =>
    intro cache prompts
    simp [post_model_hook]
  | cons tc rest ih =>
    intro cache prompts
    simp only [post_model_hook]
    split
    case isTrue h =>
      split
      case isTrue h2 => exact List.Sublist.cons₂ tc (ih _ _)
      case isFalse h2 =>
        split
        case isTrue h3 => exact List.Sublist.cons₂ tc (ih _ _)
        case isFalse h3 => exact List.Sublist.cons tc (ih _ _)
    case isFalse h => exact List.Sublist.cons₂ tc (ih _ _)

/-! ## Delegation engine (src/deepagents/sub_agent.py)

_get_agents builds a registry dict starting with the implicit general-purpose
agent over the full toolset, then one entry per subagent spec (a spec without
a tools list gets the full toolset). The task tool resolves subagent_type
against the registry keys; an unknown type returns a descriptive error string
(no Command, so no state update) without invoking any child session. The
child run is abstracted by a runChild function; the error branch never uses it. -/

/-- A sub-agent spec (name, description, prompt, optional tool allow-list). -/
structure SubAgentSpec where
  name : String
  description : String
  prompt : String
  tools : Option (List String)
deriving DecidableEq, Repr

/-- Generic Python-dict lookup. -/
def dictGetV {α : Type} : List (String × α) → String → Option α
  | [], _ => none
  | (k, v) :: t, q => if k = q then some v else dictGetV t q

/-- Generic Python-dict assignment. -/
def dictInsertV {α : Type} : List (String × α) → String → α → List (String × α)
  | [], k, v => [(k, v)]
  | (k0, v0) :: t, k, v => if k0 = k then (k, v) :: t else (k0, v0) :: dictInsertV t k v

/-- The registry built by _get_agents, as a map from agent name to its toolset:
general-purpose with the full toolset first, then each spec in order. -/
def buildAgents (tools : List String) (subagents : List SubAgentSpec) :
    List (String × List String) :=
  subagents.foldl (fun m a => dictInsertV m a.name (a.tools.getD tools))
    [("general-purpose", tools)]

/-- Result of the task tool: an error string, or a child run merging the
final files and returning the last message. -/
inductive TaskResult where
  | err (msg : String)
  | ran (files : Files) (finalMessage : String)
deriving DecidableEq, Repr

/-- Python repr of a list of strings, as f-string interpolation renders it. -/
def pyListRepr (l : List String) : String :=
  "[" ++ joinSep ", " (l.map (fun s => "'" ++ s ++ "'")) ++ "]"

/-- The unknown-agent-type error message of the task tool. -/
def unknownAgentMsg (t : String) (names : List String) : String :=
  "Error: invoked agent of type " ++ t ++ ", the only allowed types are " ++
    pyListRepr (names.map (fun k => "`" ++ k ++ "`"))

/-- task from src/deepagents/sub_agent.py. runChild abstracts running the
child session on the task description and a snapshot of the files, returning
the merged files and the child final message. -/
def task (tools : List String) (subagents : List SubAgentSpec)
    (runChild : String → String → Files → Files × String)
    (description subagent_type : String) (files : Files) : TaskResult :=
  let agents := buildAgents tools subagents
  if subagent_type ∈ agents.map Prod.fst then
    let r := runChild subagent_type description files
    TaskResult.ran r.1 r.2
  else
    TaskResult.err (unknownAgentMsg subagent_type (agents.map Prod.fst))

theorem mem_keys_dictInsertV {α : Type} (m : List (String × α)) (k q : String) (v : α)
    (h : k ∈ m.map Prod.fst) : k ∈ (dictInsertV m q v).map Prod.fst := by
  induction m with
  | nil => simp at h
  | cons hd t ih =>
    obtain ⟨k0, v0⟩ := hd
    rcases List.mem_cons.mp h with h | h
    · by_cases hk : k0 = q
      · subst h
        simp [dictInsertV, hk]
      · simp [dictInsertV, hk, h]
    · by_cases hk : k0 = q
      · simp [dictInsertV, hk]
        exact Or.inr (by simpa using h)
      · simp [dictInsertV, hk]
        exact Or.inr (by simpa using ih h)

theorem dictGetV_insertV_ne {α : Type} (m : List (String × α)) (k q : String) (v : α)
    (hq : k ≠ q) : dictGetV (dictInsertV m k v) q = dictGetV m q := by
  induction m with
  | nil => simp [dictInsertV, dictGetV, hq]
  | cons hd t ih =>
    obtain ⟨k0, v0⟩ := hd
    by_cases hk : k0 = k
    · subst hk
      simp [dictInsertV, dictGetV, hq]
    · simp [dictInsertV, hk, dictGetV, ih]

theorem general_purpose_mem_buildAgents (tools : List String)
    (subagents : List SubAgentSpec) :
    "general-purpose" ∈ (buildAgents tools subagents).map Prod.fst := by
  unfold buildAgents
  have : ∀ (l : List SubAgentSpec) (m : List (String × List String)),
      "general-purpose" ∈ m.map Prod.fst →
      "general-purpose" ∈
        (l.foldl (fun m a => dictInsertV m a.name (a.tools.getD tools)) m).map Prod.fst := by
    intro l
    induction l with
    | nil => intro m hm; simpa using hm
    | cons a t ih =>
      intro m hm
      exact ih _ (mem_keys_dictInsertV m _ a.name _ hm)
  exact this subagents _ (by simp)

theorem buildAgents_general_purpose_tools (tools : List String)
    (subagents : List SubAgentSpec)
    (h : ∀ a ∈ subagents, a.name ≠ "general-purpose") :
    dictGetV (buildAgents tools subagents) "general-purpose" = some tools := by
  unfold buildAgents
  have : ∀ (l : List SubAgentSpec) (m : List (String × List String)),
      (∀ a ∈ l, a.name ≠ "general-purpose") →
      dictGetV (l.foldl (fun m a => dictInsertV m a.name (a.tools.getD tools)) m)
          "general-purpose" = dictGetV m "general-purpose" := by
    intro l
    induction l with
    | nil => intro m _; rfl
    | cons a t ih =>
      intro m hm
      rw [List.foldl_cons,
        ih _ (fun x hx => hm x (List.mem_cons_of_mem a hx)),
        dictGetV_insertV_ne _ _ _ _ (hm a (List.mem_cons_self a t))]
  rw [this subagents _ h]
  rfl

/-- C7: the registry always contains the implicit general-purpose entry (with
the full toolset whenever no spec shadows the name), and for every
subagent_type that does not resolve against the registry, task returns the
descriptive unknown-agent-type error listing the allowed types — a plain
result, independent of the child runner, so no child session runs and no state
is mutated. -/
theorem task_unknown_agent_type (tools : List String) (subagents : List SubAgentSpec)
    (runChild : String → String → Files → Files × String)
    (description subagent_type : String) (files : Files) :
    "general-purpose" ∈ (buildAgents tools subagents).map Prod.fst ∧
    ((∀ a ∈ subagents, a.name ≠ "general-purpose") →
      dictGetV (buildAgents tools subagents) "general-purpose" = some tools) ∧
    (subagent_type ∉ (buildAgents tools subagents).map Prod.fst →
      task tools subagents runChild description subagent_type files =
        TaskResult.err
          (unknownAgentMsg subagent_type ((buildAgents tools subagents).map Prod.fst))) := by
  refine ⟨general_purpose_mem_buildAgents tools subagents,
    buildAgents_general_purpose_tools tools subagents, ?_⟩
  intro hmem
  simp [task, hmem]

/-- Witness for C7: a registry with one researcher spec rejects an unknown
type with the message naming the allowed types, and keeps the implicit
general-purpose entry over the full toolset. -/
theorem task_unknown_agent_type_witness :
    task ["read_file", "write_file"] [⟨"researcher", "d", "p", some ["read_file"]⟩]
        (fun _ _ f => (f, "done")) "analyze" "code-reviewer" [] =
      TaskResult.err (unknownAgentMsg "code-reviewer" ["general-purpose", "researcher"]) ∧
    dictGetV (buildAgents ["read_file", "write_file"]
        [⟨"researcher", "d", "p", some ["read_file"]⟩]) "general-purpose" =
      some ["read_file", "write_file"] := by
  have h := task_unknown_agent_type ["read_file", "write_file"]
    [⟨"researcher", "d", "p", some ["read_file"]⟩]
    (fun _ _ f => (f, "done")) "analyze" "code-reviewer" []
  refine ⟨?_, h.2.1 (by decide)⟩
  have h3 := h.2.2 (by decide)
  have hkeys : (buildAgents ["read_file", "write_file"]
      [⟨"researcher", "d", "p", some ["read_file"]⟩]).map Prod.fst =
      ["general-purpose", "researcher"] := by decide
  rw [hkeys] at h3
  exact h3

end DeepAgents
